import Mathlib

/-!
Verification development for the Polysport trading bot's reconciliation core.

The Lean definitions below are a shallow embedding of the Python sources:
  - `src/monitor/order_monitor.py`   (OrderMonitor: the tracked-order ledger)
  - `src/storage/price_cache.py`     (PriceCache: write-once price store)
  - `src/storage/market_queue.py`    (MarketQueue: time-gated admission queue)
  - `src/execution/trade_executor.py` (TradeExecutor: reconciliation and
    take-profit issuance)

Modelling conventions:
  - Python `dict` stores are embedded as association lists `List (String x V)`
    with first-match lookup (`getKey`), in-place overwrite-or-append update
    (`setKey`) and removal (`eraseKey`); a Python dict always has distinct
    keys, and `setKey`/`eraseKey` preserve that invariant.
  - `Decimal` prices, sizes and balances are embedded as `Rat` (exact
    arithmetic; the source only adds, subtracts, multiplies, divides by 100
    and compares, all exact in `Decimal` and in `Rat`).
  - Timestamps (`datetime.now()` values) are abstract ticks (`Nat` for
    recording, `Rat` for the queue's window comparisons); ISO-timestamp
    parsing of queue entries is abstracted by a function
    `String -> Option Rat` where `none` covers both an unparsable string
    and one whose comparison with `now` raises (naive vs aware datetimes);
    in the source either case is caught and the entry skipped.
  - External collaborators (venue client, market scanner) are oracles
    passed in explicitly; an exception raised by a client call is the
    oracle returning `none` at that call site.
  - Python truthiness tests on optional numbers (`if not x`) treat both
    `None` and `0` as false; the embedding checks `none` and `= 0`
    explicitly where the source does this.
-/

namespace Polysport

/-- First-match lookup in an association list, the embedding of Python
`dict` key lookup (`d[k]` / `d.get(k)` / `k in d`). -/
def getKey {V : Type} (k : String) : List (String × V) → Option V
  | [] => none
  | (k', v) :: rest => if k' = k then some v else getKey k rest

/-- Overwrite-or-append update of an association list, the embedding of
Python `d[k] = v`: replaces the first entry with key `k` in place, or
appends a new entry when the key is absent. -/
def setKey {V : Type} (k : String) (v : V) : List (String × V) → List (String × V)
  | [] => [(k, v)]
  | (k', v') :: rest => if k' = k then (k, v) :: rest else (k', v') :: setKey k v rest

/-- Removal from an association list, the embedding of Python `del d[k]`
(on a dict every key occurs once, so removing all matches removes the one). -/
def eraseKey {V : Type} (k : String) : List (String × V) → List (String × V)
  | [] => []
  | (k', v') :: rest => if k' = k then eraseKey k rest else (k', v') :: eraseKey k rest

/-- A tracked order, the embedding of the dict built in
`OrderMonitor.add_order` (order_monitor.py lines 75-88). -/
structure TrackedOrder where
  order_id : String
  token_id : String
  market_slug : String
  side : String
  price : ℚ
  size : ℚ
  entry_number : Option ℕ
  strong_team_price_cents : Option ℚ
  created_at : ℕ
  last_seen : ℕ
  disappeared_count : ℕ
  status : String
  recreated_as : Option String
  deriving DecidableEq

/-- The OrderMonitor's `tracked_orders` dict: order_id -> tracked order. -/
abbrev Ledger := List (String × TrackedOrder)

/-- Embedding of `OrderMonitor.add_order` (order_monitor.py lines 51-91):
unconditionally stores a fresh record with status `active` and
`disappeared_count = 0` under `order_id`, overwriting any existing entry. -/
def add_order (m : Ledger) (order_id token_id market_slug side : String)
    (price size : ℚ) (entry_number : Option ℕ)
    (strong_team_price_cents : Option ℚ) (now : ℕ) : Ledger :=
  setKey order_id
    { order_id := order_id
      token_id := token_id
      market_slug := market_slug
      side := side
      price := price
      size := size
      entry_number := entry_number
      strong_team_price_cents := strong_team_price_cents
      created_at := now
      last_seen := now
      disappeared_count := 0
      status := "active"
      recreated_as := none } m

/-- Embedding of `OrderMonitor.update_order_status` (order_monitor.py lines
93-126). When the id is untracked, no-op. When `still_exists`, refresh
`last_seen`, zero `disappeared_count`, and set `status` only when a truthy
`current_status` is supplied (Python `if current_status:` — `None` and the
empty string are falsy). When not `still_exists`, increment
`disappeared_count` and set `status` to `disappeared` once the count is
at least 1 (always, since the increment makes it positive). -/
def update_order_status (m : Ledger) (order_id : String) (still_exists : Bool)
    (current_status : Option String) (now : ℕ) : Ledger :=
  match getKey order_id m with
  | none => m
  | some o =>
    if still_exists then
      let newStatus := match current_status with
        | some s => if s = "" then o.status else s
        | none => o.status
      setKey order_id { o with last_seen := now, disappeared_count := 0, status := newStatus } m
    else
      let c := o.disappeared_count + 1
      setKey order_id
        { o with disappeared_count := c, status := if 1 ≤ c then "disappeared" else o.status } m

/-- Embedding of `OrderMonitor.get_disappeared_orders` (order_monitor.py
lines 128-141): the tracked orders with status `disappeared`, in store
order. -/
def get_disappeared_orders (m : Ledger) : List TrackedOrder :=
  (m.map Prod.snd).filter (fun o => o.status = "disappeared")

/-- Embedding of `OrderMonitor.mark_order_filled` (order_monitor.py lines
143-147): set status `filled` when the id is tracked, else no-op. -/
def mark_order_filled (m : Ledger) (order_id : String) : Ledger :=
  match getKey order_id m with
  | none => m
  | some o => setKey order_id { o with status := "filled" } m

/-- Embedding of `OrderMonitor.mark_order_recreated` (order_monitor.py
lines 149-161): set status `recreated` and record the new id, when the old
id is tracked. -/
def mark_order_recreated (m : Ledger) (old_order_id new_order_id : String) : Ledger :=
  match getKey old_order_id m with
  | none => m
  | some o => setKey old_order_id { o with status := "recreated", recreated_as := some new_order_id } m

/-- Embedding of `OrderMonitor.remove_order` (order_monitor.py lines
163-173): delete the entry when tracked, else no-op. -/
def remove_order (m : Ledger) (order_id : String) : Ledger :=
  match getKey order_id m with
  | none => m
  | some _ => eraseKey order_id m

/-- Embedding of `OrderMonitor.get_active_orders_by_market` (order_monitor.py
lines 175-192): tracked orders of the market whose status is `active` or
`disappeared`, in store order. -/
def get_active_orders_by_market (m : Ledger) (market_slug : String) : List TrackedOrder :=
  (m.map Prod.snd).filter
    (fun o => o.market_slug = market_slug ∧ (o.status = "active" ∨ o.status = "disappeared"))

/-- A cached price entry, the embedding of the dict stored by
`PriceCache.cache_price` (price_cache.py lines 84-88). -/
structure CacheEntry where
  price : ℚ
  team_name : String
  cached_at : ℕ
  deriving DecidableEq

/-- The PriceCache's `cached_prices` dict, keyed by the composite string
key built in the source. -/
abbrev Cache := List (String × CacheEntry)

/-- The composite cache key, the embedding of the f-string
`f"\x7bmarket_slug\x7d:\x7btoken_id\x7d"` used throughout price_cache.py. -/
def cacheKey (market_slug token_id : String) : String :=
  market_slug ++ ":" ++ token_id

/-- Embedding of `PriceCache.get_cached_price` (price_cache.py lines
48-62): the stored price for the key, when present. -/
def get_cached_price (c : Cache) (market_slug token_id : String) : Option ℚ :=
  (getKey (cacheKey market_slug token_id) c).map CacheEntry.price

/-- Embedding of `PriceCache.cache_price` (price_cache.py lines 64-89):
stores the price only when the key is not already cached (first
observation wins). -/
def cache_price (c : Cache) (market_slug token_id : String) (price : ℚ)
    (team_name : String) (now : ℕ) : Cache :=
  let key := cacheKey market_slug token_id
  match getKey key c with
  | some _ => c
  | none => setKey key { price := price, team_name := team_name, cached_at := now } c

/-- A queued market, the embedding of the dict stored by
`MarketQueue.add_pending_market` (market_queue.py lines 79-85); its
timestamps are kept as the raw ISO strings the source stores. The
`entered_at` field is absent (`none`) until `mark_market_entered` sets it. -/
structure QueueEntry where
  slug : String
  entry_time : String
  match_start_time : String
  discovered_at : ℕ
  status : String
  entered_at : Option ℕ
  deriving DecidableEq

/-- The MarketQueue's `pending_markets` dict: slug -> queued market. -/
abbrev MQueue := List (String × QueueEntry)

/-- Embedding of `MarketQueue.add_pending_market` (market_queue.py lines
61-87): no-op when the slug is already queued, else insert a `pending`
entry. -/
def add_pending_market (q : MQueue) (slug entry_time match_start_time : String)
    (now : ℕ) : MQueue :=
  match getKey slug q with
  | some _ => q
  | none =>
    setKey slug
      { slug := slug
        entry_time := entry_time
        match_start_time := match_start_time
        discovered_at := now
        status := "pending"
        entered_at := none } q

/-- Embedding of the per-entry readiness test inside
`MarketQueue.get_markets_ready_for_entry` (market_queue.py lines 118-135):
status must be `pending`, both timestamps must parse (an unparsable
timestamp, or one whose comparison with `now` raises, is caught and the
entry skipped), and `entry_time <= now <= entry_time + grace` with
`now < match_start_time` must hold. `parseTime` abstracts
`datetime.fromisoformat` plus comparability with the timezone-aware `now`;
`grace` is the `timedelta(minutes=grace_period_minutes)` duration. -/
def marketReady (parseTime : String → Option ℚ) (now grace : ℚ)
    (e : QueueEntry) : Bool :=
  e.status = "pending" &&
    match parseTime e.entry_time, parseTime e.match_start_time with
    | some entryT, some matchT =>
      decide (entryT ≤ now) && decide (now ≤ entryT + grace) && decide (now < matchT)
    | _, _ => false

/-- Embedding of `MarketQueue.get_markets_ready_for_entry` (market_queue.py
lines 102-141): the slugs of the queued entries passing `marketReady`, in
store order. -/
def get_markets_ready_for_entry (parseTime : String → Option ℚ) (now grace : ℚ)
    (q : MQueue) : List String :=
  (q.filter (fun kv => marketReady parseTime now grace kv.2)).map Prod.fst

/-- Embedding of `MarketQueue.remove_market` (market_queue.py lines
171-181): delete the entry when present, else no-op. -/
def remove_market (q : MQueue) (slug : String) : MQueue :=
  match getKey slug q with
  | none => q
  | some _ => eraseKey slug q

/-- A call to the venue's order-placement API, as issued by the executor:
`place_limit_buy(token_id, price, amount_usdc)` or
`place_limit_sell(token_id, price, size)`. -/
inductive VenueCall where
  | limitBuy (token_id : String) (price amount_usdc : ℚ)
  | limitSell (token_id : String) (price size : ℚ)
  deriving DecidableEq

/-- Environment of one `TradeExecutor.check_and_recreate_orders` pass
(trade_executor.py lines 131-239): the venue's open-order id snapshot, the
optional market scanner (`self.market_scanner`, `is_market_active`), the
presence of the optional market queue (`self.market_queue`), and per-order
oracles for `get_token_balance` and order placement, keyed by the
disappeared order's id. An oracle answering `none` is that client call
raising; `placeOf` answering `some none` is a response without an
`orderID`. -/
structure RecreateEnv where
  openOrderIds : List String
  isActive : Option (String → Bool)
  queuePresent : Bool
  balOf : String → Option ℚ
  placeOf : String → Option (Option String)
  now : ℕ

/-- Mutable state threaded through a reconciliation pass: the ledger, the
admission queue, the count of recreated orders, and the list of placement
calls issued so far. -/
structure RecState where
  ledger : Ledger
  queue : MQueue
  recreated : ℕ
  calls : List VenueCall
  deriving DecidableEq

/-- Embedding of the observe phase of `check_and_recreate_orders`
(trade_executor.py lines 142-145): for every tracked order id, call
`update_order_status(order_id, order_id in open_order_ids)` with no
explicit status. -/
def observeAll (openOrderIds : List String) (now : ℕ) (m : Ledger) : Ledger :=
  (m.map Prod.fst).foldl
    (fun acc id => update_order_status acc id (decide (id ∈ openOrderIds)) none now) m

/-- Embedding of the batched ended-market pre-check of
`check_and_recreate_orders` (trade_executor.py lines 155-161): when a
scanner is wired, the distinct market slugs of the disappeared orders
whose market is not active; else the empty set. -/
def computeEndedMarkets (isActive : Option (String → Bool))
    (disappeared : List TrackedOrder) : List String :=
  match isActive with
  | none => []
  | some act => ((disappeared.map TrackedOrder.market_slug).dedup).filter (fun s => !act s)

/-- Embedding of the placement request the recreation branch issues for a
disappeared order (trade_executor.py lines 190-207): a BUY is re-submitted
as `place_limit_buy(token, price, price * size)` and a SELL as
`place_limit_sell(token, price, size)`. -/
def recreateCall (o : TrackedOrder) : VenueCall :=
  if o.side = "BUY" then VenueCall.limitBuy o.token_id o.price (o.price * o.size)
  else VenueCall.limitSell o.token_id o.price o.size

/-- Embedding of one iteration of the disappeared-order loop of
`check_and_recreate_orders` (trade_executor.py lines 166-233), for the
snapshot order `o`: if the order's market is in the ended set, remove it
from the ledger and (when a queue is wired) from the admission queue; else
fetch the token balance (a raise skips the order unchanged); a balance
above the 0.1-share dust threshold marks the order filled; otherwise an
equivalent order is submitted, and only a response carrying an order id
records the new order and marks the old one recreated. Any exception in
the body is caught and the loop continues with the next order. -/
def recreateStep (env : RecreateEnv) (ended : List String) (st : RecState)
    (o : TrackedOrder) : RecState :=
  if o.market_slug ∈ ended then
    { st with
      ledger := remove_order st.ledger o.order_id
      queue := if env.queuePresent then remove_market st.queue o.market_slug else st.queue }
  else
    match env.balOf o.order_id with
    | none => st
    | some bal =>
      if bal > 1/10 then
        { st with ledger := mark_order_filled st.ledger o.order_id }
      else
        match env.placeOf o.order_id with
        | none => { st with calls := st.calls ++ [recreateCall o] }
        | some none => { st with calls := st.calls ++ [recreateCall o] }
        | some (some newId) =>
          { st with
            calls := st.calls ++ [recreateCall o]
            ledger := mark_order_recreated
              (add_order st.ledger newId o.token_id o.market_slug o.side o.price o.size
                o.entry_number none env.now)
              o.order_id newId
            recreated := st.recreated + 1 }

/-- Embedding of `TradeExecutor.check_and_recreate_orders`
(trade_executor.py lines 131-239): observe every tracked order against the
open-order snapshot, collect the disappeared orders, batch-compute the
ended markets, then run the per-order loop. -/
def check_and_recreate_orders (env : RecreateEnv) (ledger : Ledger)
    (queue : MQueue) : RecState :=
  let observed := observeAll env.openOrderIds env.now ledger
  let disappeared := get_disappeared_orders observed
  let ended := computeEndedMarkets env.isActive disappeared
  disappeared.foldl (recreateStep env ended) ⟨observed, queue, 0, []⟩

/-- A position row from the venue's Data API, as read by
`check_filled_positions_and_set_tp` (trade_executor.py lines 304-308). -/
structure Position where
  asset : String
  size : ℚ
  slug : String
  outcome : String
  avgPrice : ℚ
  deriving DecidableEq

/-- An open-order row from the venue's CLOB API, as read when building the
existing-sell map (trade_executor.py lines 288-294). -/
structure OpenOrder where
  side : String
  asset_id : String
  original_size : ℚ
  deriving DecidableEq

/-- A value of the `price_cache` dict handed to
`check_filled_positions_and_set_tp`: the source reads the keys `price`
(defaulting to 0, folded into the total field here),
`strong_team_price_cents` (optional) and `filled_entry_numbers`
(a set, defaulting to empty; kept as a duplicate-free list). -/
structure PriceData where
  price : ℚ
  strong_team_price_cents : Option ℚ
  filled_entry_numbers : List ℕ
  deriving DecidableEq

/-- Embedding of the existing-SELL-order aggregation of
`check_filled_positions_and_set_tp` (trade_executor.py lines 287-294):
total `original_size` of open SELL orders per token. -/
def buildSells (orders : List OpenOrder) : String → ℚ :=
  orders.foldl
    (fun acc o =>
      if o.side = "SELL" then
        fun t => if t = o.asset_id then acc t + o.original_size else acc t
      else acc)
    (fun _ => 0)

/-- Embedding of the order-tracking fallback of
`check_filled_positions_and_set_tp` (trade_executor.py lines 332-356):
scan the market's active/disappeared tracked orders; the last truthy
`strong_team_price_cents` wins (Python `if order_data.get(...)`, so 0 is
skipped); the last BUY order for the token gives the entry price, and its
truthy entry numbers accumulate into a set; data is produced only when
both an entry price (truthy, so nonzero) and a strong price were found. -/
def tpFallback (ledger : Ledger) (market_slug token_id : String) : Option PriceData :=
  let tracked := get_active_orders_by_market ledger market_slug
  let strong : Option ℚ := tracked.foldl
    (fun acc o =>
      match o.strong_team_price_cents with
      | some s => if s = 0 then acc else some s
      | none => acc)
    none
  let entry : Option ℚ := tracked.foldl
    (fun acc o => if o.token_id = token_id ∧ o.side = "BUY" then some o.price else acc)
    none
  let fills : List ℕ := tracked.foldl
    (fun acc o =>
      if o.token_id = token_id ∧ o.side = "BUY" then
        match o.entry_number with
        | some n => if n = 0 ∨ n ∈ acc then acc else acc ++ [n]
        | none => acc
      else acc)
    []
  match entry, strong with
  | some ep, some s =>
    if ep = 0 then none
    else some { price := ep, strong_team_price_cents := some s, filled_entry_numbers := fills }
  | _, _ => none

/-- Environment of one `check_filled_positions_and_set_tp` pass: the
excluded markets (`already_profitable_markets`) and the per-position
placement oracle (the outcome of `place_take_profit_orders` for the
position at that index: `none` when the sell was rejected or an exception
was caught, `some id` when the venue returned an order id). -/
structure TPEnv where
  alreadyProfitable : List String
  sellResult : ℕ → Option String
  now : ℕ

/-- Mutable state threaded through a take-profit pass: the running
existing-sell accumulator, the order ledger, the count of TP orders
placed, the successfully issued sell calls, and the index of the position
being processed. -/
structure TPState where
  sells : String → ℚ
  ledger : Ledger
  tp_placed : ℕ
  issued : List VenueCall
  idx : ℕ

/-- Embedding of the skip-or-price decision chain of
`check_filled_positions_and_set_tp` for one position (trade_executor.py
lines 311-406): dust skip, excluded-market skip, enough-sells skip, price
resolution (cache first, tracking fallback second, else a
manual-management skip), the missing/zero strong-price skip, the
above-75-cents skip, and the balanced (strong <= 60) and non-balanced
(60 < strong <= 75, both entries required) take-profit formulas. Returns
the TP price when a sell order will be attempted. -/
def tpDecision (env : TPEnv) (cache : List (String × PriceData)) (sells : String → ℚ)
    (ledger : Ledger) (p : Position) : Option ℚ :=
  if p.size < 1/10 then none
  else if p.slug ∈ env.alreadyProfitable then none
  else
    let unsold := p.size - sells p.asset
    if unsold ≤ 1/10 then none
    else
      let data := match getKey (cacheKey p.slug p.asset) cache with
        | some d => some d
        | none => tpFallback ledger p.slug p.asset
      match data with
      | none => none
      | some d =>
        match d.strong_team_price_cents with
        | none => none
        | some s =>
          if s = 0 then none
          else if s > 75 then none
          else if s ≤ 60 then
            some (if d.price * 100 ≥ 24 then s / 100 - 2/100 else (102 - s) / 100)
          else if d.filled_entry_numbers.length < 2 then none
          else some (s / 100 - 2/100)

/-- Embedding of one iteration of the position loop of
`check_filled_positions_and_set_tp` (trade_executor.py lines 301-428):
when the decision chain yields a TP price, a sell for the unsold size is
attempted via `place_take_profit_orders`; on success the new SELL order is
recorded in the ledger and its size is added to the in-memory
existing-sell accumulator immediately; on failure (or on any skip) the
state is unchanged. The position index always advances. -/
def tpStep (env : TPEnv) (cache : List (String × PriceData)) (st : TPState)
    (p : Position) : TPState :=
  let st' :=
    match tpDecision env cache st.sells st.ledger p with
    | none => st
    | some tp =>
      let unsold := p.size - st.sells p.asset
      match env.sellResult st.idx with
      | none => st
      | some orderId =>
        { st with
          ledger := add_order st.ledger orderId p.asset p.slug "SELL" tp unsold none none env.now
          sells := fun t => if t = p.asset then st.sells t + unsold else st.sells t
          tp_placed := st.tp_placed + 1
          issued := st.issued ++ [VenueCall.limitSell p.asset tp unsold] }
  { st' with idx := st.idx + 1 }

/-- Embedding of `TradeExecutor.check_filled_positions_and_set_tp`
(trade_executor.py lines 241-433): build the existing-sell map from the
open-order snapshot, then process every position in order. -/
def check_filled_positions_and_set_tp (env : TPEnv) (positions : List Position)
    (openOrders : List OpenOrder) (cache : List (String × PriceData))
    (ledger : Ledger) : TPState :=
  positions.foldl (tpStep env cache) ⟨buildSells openOrders, ledger, 0, [], 0⟩

/-- Total size of the issued sell calls that target token `t`. -/
def issuedSellSize (calls : List VenueCall) (t : String) : ℚ :=
  (calls.map (fun c =>
    match c with
    | VenueCall.limitSell tok _ sz => if tok = t then sz else 0
    | VenueCall.limitBuy _ _ _ => 0)).sum

/-- Largest size among the positions of token `t` in the pass's position
snapshot (0 when the token has no position). -/
def maxPosSize (positions : List Position) (t : String) : ℚ :=
  ((positions.filter (fun p => p.asset = t)).map Position.size).foldr max 0

/-- The components of a reconciliation-pass state that later loop
iterations read: the ledger, the queue and the recreated count (the
`calls` trace is write-only). -/
def recCore (st : RecState) : Ledger × MQueue × ℕ :=
  (st.ledger, st.queue, st.recreated)

/-- Concrete tracked order in the terminal state `filled`, used by the
counterexample and witness theorems. -/
def sampleFilledOrder : TrackedOrder :=
  { order_id := "o1"
    token_id := "t1"
    market_slug := "m1"
    side := "BUY"
    price := 1
    size := 10
    entry_number := some 1
    strong_team_price_cents := some 61
    created_at := 0
    last_seen := 0
    disappeared_count := 0
    status := "filled"
    recreated_as := none }

/-- Concrete tracked order in the state `disappeared`, used by the
counterexample and witness theorems. -/
def sampleDisappearedOrder : TrackedOrder :=
  { sampleFilledOrder with
    order_id := "o2"
    disappeared_count := 1
    status := "disappeared" }

/-- The sample disappeared order as it looks after one more missed
observation (the observe phase increments its count), used by witness
theorems. -/
def sampleObservedOrder : TrackedOrder :=
  { sampleDisappearedOrder with disappeared_count := 2 }

/-- Concrete single-order ledger holding the sample disappeared order,
used by witness theorems. -/
def sampleLedger : Ledger := [("o2", sampleDisappearedOrder)]

/-- Concrete reconciliation environment whose placement oracle succeeds,
used by witness theorems: empty venue snapshot, every market active, a
queue wired, zero balances, and placements answered with order id n1. -/
def sampleRecEnv : RecreateEnv :=
  { openOrderIds := []
    isActive := some (fun _ => true)
    queuePresent := true
    balOf := fun _ => some 0
    placeOf := fun _ => some (some "n1")
    now := 5 }

/-- Concrete reconciliation environment whose placement oracle returns a
response without an order id, used by witness theorems. -/
def sampleRecEnvFail : RecreateEnv :=
  { sampleRecEnv with placeOf := fun _ => some none }

/-- Concrete reconciliation-pass state, used by witness theorems. -/
def sampleRecState : RecState :=
  { ledger := [("o2", sampleObservedOrder)]
    queue := []
    recreated := 0
    calls := [] }

/-- Concrete position on token t1, used by witness theorems. -/
def samplePosition : Position :=
  { asset := "t1", size := 20, slug := "m1", outcome := "A", avgPrice := 0 }

/-- Concrete exit-pass price cache holding a locked reference price for
(m1, t1) with a strong-team price of 70 cents and both entry tiers
filled, used by witness theorems. -/
def sampleTPCache : List (String × PriceData) :=
  [("m1:t1", { price := 1, strong_team_price_cents := some 70, filled_entry_numbers := [1, 2] })]

/-- Concrete exit-pass environment whose placement oracle succeeds with
order id s1, used by witness theorems. -/
def sampleTPEnv : TPEnv :=
  { alreadyProfitable := [], sellResult := fun _ => some "s1", now := 9 }

/-- Concrete exit-pass state with no existing sells and an empty ledger,
used by witness theorems. -/
def sampleTPState : TPState :=
  { sells := fun _ => 0, ledger := [], tp_placed := 0, issued := [], idx := 0 }

/-- Concrete queue entry whose window contains the sample time 10, used
by witness theorems. -/
def sampleQueueEntry : QueueEntry :=
  { slug := "m1"
    entry_time := "e1"
    match_start_time := "s1"
    discovered_at := 0
    status := "pending"
    entered_at := none }

/-- Concrete timestamp parse map for witness theorems: `e1` parses to 10,
`s1` to 100, anything else fails to parse. -/
def sampleParse : String → Option ℚ :=
  fun s => if s = "e1" then some 10 else if s = "s1" then some 100 else none

/-- Concrete admission queue for witness theorems: one ready entry and one
entry with an unparsable entry time. -/
def sampleQueue : MQueue :=
  [("m1", sampleQueueEntry),
   ("m2", { sampleQueueEntry with slug := "m2", entry_time := "bad" })]

/- ------------------------------------------------------------------ -/
/- Association-list lemmas.                                           -/
/- ------------------------------------------------------------------ -/

theorem getKey_setKey_same {V : Type} (k : String) (v : V) (m : List (String × V)) :
    getKey k (setKey k v m) = some v := by
  induction m with
  | nil => simp [setKey, getKey]
  | cons hd tl ih =>
    obtain ⟨k', v'⟩ := hd
    by_cases h : k' = k <;> simp [setKey, getKey, h, ih]

theorem getKey_setKey_ne {V : Type} (k k₂ : String) (v : V) (m : List (String × V))
    (h : k ≠ k₂) : getKey k₂ (setKey k v m) = getKey k₂ m := by
  induction m with
  | nil => simp [setKey, getKey, h]
  | cons hd tl ih =>
    obtain ⟨k', v'⟩ := hd
    by_cases h' : k' = k
    · subst h'
      simp [setKey, getKey, h]
    · simp [setKey, getKey, h']
      by_cases h'' : k' = k₂ <;> simp [h'', ih]

theorem getKey_eraseKey_same {V : Type} (k : String) (m : List (String × V)) :
    getKey k (eraseKey k m) = none := by
  induction m with
  | nil => simp [eraseKey, getKey]
  | cons hd tl ih =>
    obtain ⟨k', v'⟩ := hd
    by_cases h : k' = k <;> simp [eraseKey, getKey, h, ih]

theorem getKey_eraseKey_ne {V : Type} (k k₂ : String) (m : List (String × V))
    (h : k ≠ k₂) : getKey k₂ (eraseKey k m) = getKey k₂ m := by
  induction m with
  | nil => simp [eraseKey, getKey]
  | cons hd tl ih =>
    obtain ⟨k', v'⟩ := hd
    by_cases h' : k' = k
    · subst h'
      simp [eraseKey, getKey, h, ih]
    · by_cases h'' : k' = k₂
      · subst h''
        simp [eraseKey, getKey, h', fun hh : k' = k => h' hh]
      · simp [eraseKey, getKey, h', h'', ih]

theorem getKey_eq_none_of_not_mem_keys {V : Type} (k : String) (m : List (String × V))
    (h : k ∉ m.map Prod.fst) : getKey k m = none := by
  induction m with
  | nil => rfl
  | cons hd tl ih =>
    obtain ⟨k', v'⟩ := hd
    simp only [List.map_cons, List.mem_cons] at h
    push_neg at h
    have hne : ¬k' = k := fun hh => h.1 hh.symm
    simp [getKey, hne, ih h.2]

theorem mem_keys_of_getKey_some {V : Type} {k : String} {m : List (String × V)} {v : V}
    (h : getKey k m = some v) : k ∈ m.map Prod.fst := by
  induction m with
  | nil => simp [getKey] at h
  | cons hd tl ih =>
    obtain ⟨k', v'⟩ := hd
    by_cases h' : k' = k
    · simp [h']
    · simp only [getKey, h', if_false] at h
      simp [ih h]

theorem not_mem_keys_of_getKey_eq_none {V : Type} {k : String} {m : List (String × V)}
    (h : getKey k m = none) : k ∉ m.map Prod.fst := by
  intro hmem
  induction m with
  | nil => simp at hmem
  | cons hd tl ih =>
    obtain ⟨k', v'⟩ := hd
    by_cases h' : k' = k
    · simp [getKey, h'] at h
    · simp only [getKey, h', if_false] at h
      simp only [List.map_cons, List.mem_cons] at hmem
      rcases hmem with hmem | hmem
      · exact h' hmem.symm
      · exact ih h hmem

theorem setKey_of_getKey_eq_none {V : Type} (k : String) (v : V) {m : List (String × V)}
    (h : getKey k m = none) : setKey k v m = m ++ [(k, v)] := by
  induction m with
  | nil => rfl
  | cons hd tl ih =>
    obtain ⟨k', v'⟩ := hd
    by_cases h' : k' = k
    · simp [getKey, h'] at h
    · simp only [getKey, h', if_false] at h
      simp [setKey, h', ih h]

/- ------------------------------------------------------------------ -/
/- C10: add_order is last-write-wins.                                 -/
/- ------------------------------------------------------------------ -/

/-- C10: `add_order` is last-write-wins, not insert-only — for every
order id, after `add_order` the ledger entry for that id is the fresh
record with status `active` and `disappeared_count = 0`, unconditionally
overwriting any pre-existing entry with the same id (terminal states
included, since the conclusion holds for every ledger `m`), and every
other id's entry is untouched. -/
theorem C10_add_order_overwrites (m : Ledger)
    (order_id token_id market_slug side : String) (price size : ℚ)
    (entry_number : Option ℕ) (strong_cents : Option ℚ) (now : ℕ) :
    getKey order_id
        (add_order m order_id token_id market_slug side price size entry_number
          strong_cents now) =
      some
        { order_id := order_id
          token_id := token_id
          market_slug := market_slug
          side := side
          price := price
          size := size
          entry_number := entry_number
          strong_team_price_cents := strong_cents
          created_at := now
          last_seen := now
          disappeared_count := 0
          status := "active"
          recreated_as := none } ∧
    ∀ k, k ≠ order_id →
      getKey k
          (add_order m order_id token_id market_slug side price size entry_number
            strong_cents now) =
        getKey k m := by
  refine ⟨getKey_setKey_same _ _ _, fun k hk => ?_⟩
  exact getKey_setKey_ne _ _ _ _ (Ne.symm hk)

/-- Witness for C10: overwriting a ledger entry that is already in the
terminal state `filled` yields a fresh `active` entry with
`disappeared_count = 0`, and an unrelated key is untouched. -/
theorem C10_add_order_overwrites_witness :
    (getKey "o1"
        (add_order [("o1", sampleFilledOrder), ("o2", sampleDisappearedOrder)]
          "o1" "t1" "m1" "BUY" (1/4) 10 (some 1) none 3)).map TrackedOrder.status =
      some "active" ∧
    getKey "o2"
        (add_order [("o1", sampleFilledOrder), ("o2", sampleDisappearedOrder)]
          "o1" "t1" "m1" "BUY" (1/4) 10 (some 1) none 3) =
      getKey "o2" [("o1", sampleFilledOrder), ("o2", sampleDisappearedOrder)] := by
  have h := C10_add_order_overwrites
    [("o1", sampleFilledOrder), ("o2", sampleDisappearedOrder)]
    "o1" "t1" "m1" "BUY" (1/4) 10 (some 1) none 3
  exact ⟨by rw [h.1]; rfl, h.2 "o2" (by decide)⟩

/- ------------------------------------------------------------------ -/
/- C6: write-once price cache.                                        -/
/- ------------------------------------------------------------------ -/

/-- C6: the price cache is write-once per (market_slug, token_id) key:
after the first successful `cache_price` call, `get_cached_price` returns
the first price, an immediate second `cache_price` with any other price
and label leaves the store unchanged, and on any later store in which the
key is present every `cache_price` call for it is a no-op. -/
theorem C6_write_once_cache (c : Cache) (slug token : String) (p₁ p₂ : ℚ)
    (l₁ l₂ : String) (n₁ n₂ : ℕ)
    (hnew : getKey (cacheKey slug token) c = none) :
    get_cached_price (cache_price c slug token p₁ l₁ n₁) slug token = some p₁ ∧
    cache_price (cache_price c slug token p₁ l₁ n₁) slug token p₂ l₂ n₂ =
      cache_price c slug token p₁ l₁ n₁ ∧
    ∀ c' : Cache, (getKey (cacheKey slug token) c').isSome →
      ∀ p l n, cache_price c' slug token p l n = c' := by
  have hset : cache_price c slug token p₁ l₁ n₁ =
      setKey (cacheKey slug token) { price := p₁, team_name := l₁, cached_at := n₁ } c := by
    simp [cache_price, hnew]
  have hget : getKey (cacheKey slug token) (cache_price c slug token p₁ l₁ n₁) =
      some { price := p₁, team_name := l₁, cached_at := n₁ } := by
    rw [hset]; exact getKey_setKey_same _ _ _
  have hnoop : ∀ c' : Cache, (getKey (cacheKey slug token) c').isSome →
      ∀ p l n, cache_price c' slug token p l n = c' := by
    intro c' hsome p l n
    rcases hc : getKey (cacheKey slug token) c' with _ | e
    · rw [hc] at hsome; simp at hsome
    · simp [cache_price, hc]
  refine ⟨?_, ?_, hnoop⟩
  · simp [get_cached_price, hget]
  · exact hnoop _ (by rw [hget]; rfl) p₂ l₂ n₂

/-- Witness for C6: caching 30 cents for (m1, t1) in the empty store,
then attempting to cache 55 cents under the same key, leaves the stored
price at 30 cents. -/
theorem C6_write_once_cache_witness :
    get_cached_price (cache_price [] "m1" "t1" (3/10) "A" 1) "m1" "t1" = some (3/10) ∧
    cache_price (cache_price [] "m1" "t1" (3/10) "A" 1) "m1" "t1" (11/20) "B" 2 =
      cache_price [] "m1" "t1" (3/10) "A" 1 ∧
    cache_price (cache_price [] "m1" "t1" (3/10) "A" 1) "m1" "t1" (1/2) "C" 3 =
      cache_price [] "m1" "t1" (3/10) "A" 1 := by
  have h := C6_write_once_cache [] "m1" "t1" (3/10) (11/20) "A" "B" 1 2 (by rfl)
  refine ⟨h.1, h.2.1, h.2.2 _ ?_ (1/2) "C" 3⟩
  simp [cache_price, cacheKey, getKey, setKey]

/- ------------------------------------------------------------------ -/
/- C7: idempotent admission.                                          -/
/- ------------------------------------------------------------------ -/

/-- C7: registering a slug that is already queued is a no-op — after a
first registration of a fresh slug, a second `add_pending_market` call
with any (possibly different) window leaves the whole queue unchanged,
the stored entry keeps the first registration's entry_time,
match_start_time, status `pending` and discovered_at, and the queue holds
exactly one entry for the slug. -/
theorem C7_idempotent_admission (q : MQueue) (slug e ms e' ms' : String) (n₁ n₂ : ℕ)
    (hnew : getKey slug q = none) :
    add_pending_market (add_pending_market q slug e ms n₁) slug e' ms' n₂ =
      add_pending_market q slug e ms n₁ ∧
    getKey slug (add_pending_market q slug e ms n₁) =
      some
        { slug := slug
          entry_time := e
          match_start_time := ms
          discovered_at := n₁
          status := "pending"
          entered_at := none } ∧
    ((add_pending_market q slug e ms n₁).map Prod.fst).count slug = 1 := by
  have hset : add_pending_market q slug e ms n₁ =
      setKey slug
        { slug := slug, entry_time := e, match_start_time := ms, discovered_at := n₁,
          status := "pending", entered_at := none } q := by
    simp [add_pending_market, hnew]
  have hget : getKey slug (add_pending_market q slug e ms n₁) =
      some
        { slug := slug, entry_time := e, match_start_time := ms, discovered_at := n₁,
          status := "pending", entered_at := none } := by
    rw [hset]; exact getKey_setKey_same _ _ _
  have hnoop : ∀ q₂ : MQueue, (getKey slug q₂).isSome →
      ∀ a b n, add_pending_market q₂ slug a b n = q₂ := by
    intro q₂ hsome a b n
    rcases hc : getKey slug q₂ with _ | v
    · rw [hc] at hsome; simp at hsome
    · simp [add_pending_market, hc]
  refine ⟨?_, hget, ?_⟩
  · exact hnoop _ (by rw [hget]; rfl) e' ms' n₂
  · rw [hset, setKey_of_getKey_eq_none _ _ hnew]
    have hnotin : slug ∉ q.map Prod.fst := not_mem_keys_of_getKey_eq_none hnew
    simp [List.count_eq_zero.mpr hnotin]

/-- Witness for C7: registering "m1" twice with different windows in an
initially empty queue leaves one `pending` entry carrying the first
window. -/
theorem C7_idempotent_admission_witness :
    add_pending_market (add_pending_market [] "m1" "e1" "s1" 1) "m1" "e2" "s2" 2 =
      add_pending_market [] "m1" "e1" "s1" 1 ∧
    getKey "m1" (add_pending_market [] "m1" "e1" "s1" 1) =
      some
        { slug := "m1", entry_time := "e1", match_start_time := "s1", discovered_at := 1,
          status := "pending", entered_at := none } ∧
    ((add_pending_market [] "m1" "e1" "s1" 1).map Prod.fst).count "m1" = 1 := by
  exact C7_idempotent_admission [] "m1" "e1" "s1" "e2" "s2" 1 2 (by rfl)

/- ------------------------------------------------------------------ -/
/- C8: entry-window selection.                                        -/
/- ------------------------------------------------------------------ -/

theorem marketReady_iff (parseTime : String → Option ℚ) (now grace : ℚ) (e : QueueEntry) :
    marketReady parseTime now grace e = true ↔
      e.status = "pending" ∧
        ∃ et mt, parseTime e.entry_time = some et ∧ parseTime e.match_start_time = some mt ∧
          et ≤ now ∧ now ≤ et + grace ∧ now < mt := by
  unfold marketReady
  rcases h1 : parseTime e.entry_time with _ | et <;>
    rcases h2 : parseTime e.match_start_time with _ | mt <;>
      simp [h1, h2, decide_eq_true_iff, and_assoc]

/-- C8: `get_markets_ready_for_entry` returns exactly the slugs of queue
entries with status `pending` whose parsed timestamps satisfy
entry_time <= now <= entry_time + grace and now < match_start_time; under
the dict invariant (distinct slugs), each qualifying slug appears exactly
once (the returned list has no duplicates) and no other slug appears. -/
theorem C8_entry_window_selection (parseTime : String → Option ℚ) (now grace : ℚ)
    (q : MQueue) (hnd : (q.map Prod.fst).Nodup) :
    (∀ slug, slug ∈ get_markets_ready_for_entry parseTime now grace q ↔
      ∃ e : QueueEntry, (slug, e) ∈ q ∧ e.status = "pending" ∧
        ∃ et mt, parseTime e.entry_time = some et ∧ parseTime e.match_start_time = some mt ∧
          et ≤ now ∧ now ≤ et + grace ∧ now < mt) ∧
    (get_markets_ready_for_entry parseTime now grace q).Nodup := by
  constructor
  · intro slug
    unfold get_markets_ready_for_entry
    simp only [List.mem_map, List.mem_filter]
    constructor
    · rintro ⟨⟨s, e⟩, ⟨hmem, hready⟩, rfl⟩
      exact ⟨e, hmem, (marketReady_iff parseTime now grace e).1 hready⟩
    · rintro ⟨e, hmem, hprops⟩
      exact ⟨(slug, e), ⟨hmem, (marketReady_iff parseTime now grace e).2 hprops⟩, rfl⟩
  · have hsub : ((q.filter (fun kv => marketReady parseTime now grace kv.2)).map Prod.fst).Sublist
        (q.map Prod.fst) := (List.filter_sublist q).map Prod.fst
    exact List.Nodup.sublist hsub hnd

/-- Witness for C8: on the sample queue at now = 10 with grace 2, the slug
m1 (pending, window [10, 12], match at 100) is returned, and the result
has no duplicates. -/
theorem C8_entry_window_selection_witness :
    "m1" ∈ get_markets_ready_for_entry sampleParse 10 2 sampleQueue ∧
    (get_markets_ready_for_entry sampleParse 10 2 sampleQueue).Nodup := by
  have h := C8_entry_window_selection sampleParse 10 2 sampleQueue (by decide)
  refine ⟨(h.1 "m1").2 ⟨sampleQueueEntry, ?_, rfl, 10, 100, rfl, rfl, ?_, ?_, ?_⟩, h.2⟩
  · simp [sampleQueue]
  · norm_num
  · norm_num
  · norm_num

/- ------------------------------------------------------------------ -/
/- C1: terminal-state monotonicity (corrected).                       -/
/- ------------------------------------------------------------------ -/

/-- Counterexample for C1 as stated: a tracked order in the terminal
state `filled` that is absent from the venue's open-order snapshot is
moved back to `disappeared` by a single `update_order_status` call —
terminal states are not excluded from disappearance marking. -/
theorem C1_ledger_monotonicity_counterexample :
    sampleFilledOrder.status = "filled" ∧
    (getKey "o1" (update_order_status [("o1", sampleFilledOrder)] "o1" false none 7)).map
        TrackedOrder.status = some "disappeared" ∧
    some "disappeared" ≠ some "filled" := by
  refine ⟨rfl, rfl, by decide⟩

/-- C1 amended: a tracked order in a terminal state (`filled`,
`cancelled`, `recreated`) keeps its status under an observe call that
sees it present (the reconciliation caller passes no explicit status),
but an observe call that misses it sets its status to `disappeared` —
terminal states are not excluded from disappearance marking; in both
cases the order stays in the ledger (observe never removes entries, which
remains the province of explicit removal and age-based cleanup). -/
theorem C1_ledger_monotonicity_amended (m : Ledger) (id : String) (o : TrackedOrder)
    (now : ℕ) (hget : getKey id m = some o)
    (_hterm : o.status = "filled" ∨ o.status = "cancelled" ∨ o.status = "recreated") :
    (getKey id (update_order_status m id true none now)).map TrackedOrder.status =
      some o.status ∧
    (getKey id (update_order_status m id false none now)).map TrackedOrder.status =
      some "disappeared" ∧
    (∀ b : Bool, (getKey id (update_order_status m id b none now)).isSome = true) := by
  have h1 : 1 ≤ o.disappeared_count + 1 := Nat.succ_le_succ (Nat.zero_le _)
  refine ⟨?_, ?_, ?_⟩
  · simp [update_order_status, hget, getKey_setKey_same]
  · simp [update_order_status, hget, getKey_setKey_same, h1]
  · intro b
    cases b <;> simp [update_order_status, hget, getKey_setKey_same]

/-- Witness for C1 amended: the concrete `filled` order keeps its status
when observed present, is flagged `disappeared` when observed absent, and
stays tracked either way. -/
theorem C1_ledger_monotonicity_amended_witness :
    (getKey "o1" (update_order_status [("o1", sampleFilledOrder)] "o1" true none 7)).map
        TrackedOrder.status = some "filled" ∧
    (getKey "o1" (update_order_status [("o1", sampleFilledOrder)] "o1" false none 7)).map
        TrackedOrder.status = some "disappeared" ∧
    (getKey "o1" (update_order_status [("o1", sampleFilledOrder)] "o1" false none 7)).isSome =
      true := by
  have h := C1_ledger_monotonicity_amended [("o1", sampleFilledOrder)] "o1"
    sampleFilledOrder 7 (by rfl) (Or.inl rfl)
  exact ⟨h.1, h.2.1, h.2.2 false⟩

/- ------------------------------------------------------------------ -/
/- C2: observe postcondition (corrected).                             -/
/- ------------------------------------------------------------------ -/

/-- Counterexample for C2 as stated: a `disappeared` order that is
re-observed as present (the reconciliation caller passes no explicit
status) keeps status `disappeared` — it is not reset to `active`, though
its disappeared_count is zeroed. -/
theorem C2_observe_postcondition_counterexample :
    (getKey "o2" (update_order_status [("o2", sampleDisappearedOrder)] "o2" true none 7)).map
        TrackedOrder.status = some "disappeared" ∧
    (getKey "o2" (update_order_status [("o2", sampleDisappearedOrder)] "o2" true none 7)).map
        TrackedOrder.status ≠ some "active" ∧
    (getKey "o2" (update_order_status [("o2", sampleDisappearedOrder)] "o2" true none 7)).map
        TrackedOrder.disappeared_count = some 0 := by
  refine ⟨rfl, by decide, rfl⟩

/-- C2 amended: for every tracked order id, if present is true the
order's disappeared_count is set to 0 and last_seen is refreshed, while
its status is changed only when a truthy explicit current_status is
supplied (the reconciliation caller supplies none, so the status — in
particular `disappeared` — is left unchanged rather than reset to
`active`); if present is false, disappeared_count is incremented and the
status is set to `disappeared` as soon as the count reaches 1 (a single
missed observation suffices); other ids are untouched. -/
theorem C2_observe_postcondition_amended (m : Ledger) (id : String) (o : TrackedOrder)
    (now : ℕ) (hget : getKey id m = some o) :
    (∀ cs : Option String,
      getKey id (update_order_status m id true cs now) =
        some
          { o with
            last_seen := now
            disappeared_count := 0
            status := match cs with
              | some s => if s = "" then o.status else s
              | none => o.status }) ∧
    (getKey id (update_order_status m id false none now) =
      some
        { o with
          disappeared_count := o.disappeared_count + 1
          status := "disappeared" }) ∧
    (∀ k, k ≠ id → ∀ (b : Bool) (cs : Option String),
      getKey k (update_order_status m id b cs now) = getKey k m) := by
  have h1 : 1 ≤ o.disappeared_count + 1 := Nat.succ_le_succ (Nat.zero_le _)
  refine ⟨?_, ?_, ?_⟩
  · intro cs
    cases cs <;> simp [update_order_status, hget, getKey_setKey_same]
  · simp [update_order_status, hget, getKey_setKey_same, h1]
  · intro k hk b cs
    cases b <;>
      simp [update_order_status, hget, getKey_setKey_ne _ _ _ _ (Ne.symm hk)]

/-- Witness for C2 amended: on the concrete `disappeared` order, a
present observation zeroes the count and keeps the status, an absent
observation increments the count to 2 and keeps `disappeared`, and an
unrelated key is untouched. -/
theorem C2_observe_postcondition_amended_witness :
    getKey "o2" (update_order_status [("o2", sampleDisappearedOrder)] "o2" true none 7) =
      some { sampleDisappearedOrder with
             last_seen := 7
             disappeared_count := 0
             status := sampleDisappearedOrder.status } ∧
    getKey "o2" (update_order_status [("o2", sampleDisappearedOrder)] "o2" false none 7) =
      some { sampleDisappearedOrder with
             disappeared_count := sampleDisappearedOrder.disappeared_count + 1
             status := "disappeared" } ∧
    getKey "zz" (update_order_status [("o2", sampleDisappearedOrder)] "o2" true none 7) =
      getKey "zz" [("o2", sampleDisappearedOrder)] := by
  have h := C2_observe_postcondition_amended [("o2", sampleDisappearedOrder)] "o2"
    sampleDisappearedOrder 7 (by rfl)
  exact ⟨h.1 none, h.2.1, h.2.2 "zz" (by decide) true none⟩

/- ------------------------------------------------------------------ -/
/- Branch lemmas for recreateStep.                                    -/
/- ------------------------------------------------------------------ -/

theorem recreateStep_ended {env : RecreateEnv} {ended : List String} {st : RecState}
    {o : TrackedOrder} (hm : o.market_slug ∈ ended) :
    recreateStep env ended st o =
      { st with
        ledger := remove_order st.ledger o.order_id
        queue := if env.queuePresent then remove_market st.queue o.market_slug else st.queue } := by
  unfold recreateStep
  rw [if_pos hm]

theorem recreateStep_balNone {env : RecreateEnv} {ended : List String} {st : RecState}
    {o : TrackedOrder} (hm : o.market_slug ∉ ended)
    (hb : env.balOf o.order_id = none) :
    recreateStep env ended st o = st := by
  unfold recreateStep
  rw [if_neg hm]
  simp only [hb]

theorem recreateStep_filled {env : RecreateEnv} {ended : List String} {st : RecState}
    {o : TrackedOrder} {bal : ℚ} (hm : o.market_slug ∉ ended)
    (hb : env.balOf o.order_id = some bal) (hgt : bal > 1/10) :
    recreateStep env ended st o =
      { st with ledger := mark_order_filled st.ledger o.order_id } := by
  unfold recreateStep
  rw [if_neg hm]
  simp only [hb]
  rw [if_pos hgt]

theorem recreateStep_placeFail {env : RecreateEnv} {ended : List String} {st : RecState}
    {o : TrackedOrder} {bal : ℚ} (hm : o.market_slug ∉ ended)
    (hb : env.balOf o.order_id = some bal) (hle : ¬ bal > 1/10)
    (hp : env.placeOf o.order_id = none ∨ env.placeOf o.order_id = some none) :
    recreateStep env ended st o = { st with calls := st.calls ++ [recreateCall o] } := by
  unfold recreateStep
  rw [if_neg hm]
  simp only [hb]
  rw [if_neg hle]
  rcases hp with hp | hp <;> simp only [hp]

theorem recreateStep_success {env : RecreateEnv} {ended : List String} {st : RecState}
    {o : TrackedOrder} {bal : ℚ} {newId : String} (hm : o.market_slug ∉ ended)
    (hb : env.balOf o.order_id = some bal) (hle : ¬ bal > 1/10)
    (hp : env.placeOf o.order_id = some (some newId)) :
    recreateStep env ended st o =
      { st with
        calls := st.calls ++ [recreateCall o]
        ledger := mark_order_recreated
          (add_order st.ledger newId o.token_id o.market_slug o.side o.price o.size
            o.entry_number none env.now)
          o.order_id newId
        recreated := st.recreated + 1 } := by
  unfold recreateStep
  rw [if_neg hm]
  simp only [hp, hb]
  rw [if_neg hle]

/- ------------------------------------------------------------------ -/
/- C3: reconciliation safety.                                         -/
/- ------------------------------------------------------------------ -/

theorem mem_computeEndedMarkets (act : String → Bool) (dis : List TrackedOrder)
    (o : TrackedOrder) (hin : o ∈ dis) :
    o.market_slug ∈ computeEndedMarkets (some act) dis ↔ act o.market_slug = false := by
  unfold computeEndedMarkets
  simp only [List.mem_filter, List.mem_dedup, List.mem_map, Bool.not_eq_true']
  constructor
  · rintro ⟨-, hact⟩
    exact hact
  · intro hact
    exact ⟨⟨o, hin, rfl⟩, hact⟩

/-- C3: per disappeared order of a reconciliation pass (with the scanner
and the queue wired, as the bot constructs the executor): if the order's
market is inactive, the order is removed from the ledger and the market
is evicted from the admission queue, and no call is placed (the count and
the call trace are untouched); otherwise, if the token-balance lookup
returns more than the 0.1-share dust threshold, the order is marked
filled and no call is placed; only when neither condition holds is an
equivalent order submitted (exactly one placement call, `recreateCall o`,
is appended). -/
theorem C3_reconciliation_safety (env : RecreateEnv) (ledger : Ledger)
    (act : String → Bool) (hscan : env.isActive = some act)
    (hq : env.queuePresent = true) (o : TrackedOrder) (st : RecState)
    (hin : o ∈ get_disappeared_orders (observeAll env.openOrderIds env.now ledger)) :
    (act o.market_slug = false →
      recreateStep env
          (computeEndedMarkets env.isActive
            (get_disappeared_orders (observeAll env.openOrderIds env.now ledger))) st o =
        { st with
          ledger := remove_order st.ledger o.order_id
          queue := remove_market st.queue o.market_slug }) ∧
    (act o.market_slug = true →
      ∀ bal : ℚ, env.balOf o.order_id = some bal → bal > 1/10 →
        recreateStep env
            (computeEndedMarkets env.isActive
              (get_disappeared_orders (observeAll env.openOrderIds env.now ledger))) st o =
          { st with ledger := mark_order_filled st.ledger o.order_id }) ∧
    (act o.market_slug = true →
      ∀ bal : ℚ, env.balOf o.order_id = some bal → ¬ bal > 1/10 →
        (recreateStep env
            (computeEndedMarkets env.isActive
              (get_disappeared_orders (observeAll env.openOrderIds env.now ledger))) st
          o).calls = st.calls ++ [recreateCall o]) := by
  have hmem : o.market_slug ∈
      computeEndedMarkets env.isActive
        (get_disappeared_orders (observeAll env.openOrderIds env.now ledger)) ↔
      act o.market_slug = false := by
    rw [hscan]
    exact mem_computeEndedMarkets act _ o hin
  refine ⟨?_, ?_, ?_⟩
  · intro hact
    rw [recreateStep_ended (hmem.2 hact), hq]
    simp
  · intro hact bal hbal hgt
    have hnot : o.market_slug ∉
        computeEndedMarkets env.isActive
          (get_disappeared_orders (observeAll env.openOrderIds env.now ledger)) := by
      intro hm
      rw [hmem.1 hm] at hact
      cases hact
    exact recreateStep_filled hnot hbal hgt
  · intro hact bal hbal hle
    have hnot : o.market_slug ∉
        computeEndedMarkets env.isActive
          (get_disappeared_orders (observeAll env.openOrderIds env.now ledger)) := by
      intro hm
      rw [hmem.1 hm] at hact
      cases hact
    rcases hpl : env.placeOf o.order_id with _ | pl
    · rw [recreateStep_placeFail hnot hbal hle (Or.inl hpl)]
    · rcases pl with _ | newId
      · rw [recreateStep_placeFail hnot hbal hle (Or.inr hpl)]
      · rw [recreateStep_success hnot hbal hle hpl]

/-- Witness for C3: in the sample environment every market is active and
the balance oracle answers 0, so the sample disappeared order reaches the
recreation branch and exactly its equivalent placement call is issued. -/
theorem C3_reconciliation_safety_witness :
    (recreateStep sampleRecEnv
        (computeEndedMarkets sampleRecEnv.isActive
          (get_disappeared_orders
            (observeAll sampleRecEnv.openOrderIds sampleRecEnv.now sampleLedger)))
        sampleRecState sampleObservedOrder).calls =
      sampleRecState.calls ++ [recreateCall sampleObservedOrder] := by
  have h := C3_reconciliation_safety sampleRecEnv sampleLedger (fun _ => true) rfl rfl
    sampleObservedOrder sampleRecState (by decide)
  exact h.2.2 rfl 0 rfl (by norm_num)

/- ------------------------------------------------------------------ -/
/- C9: per-order failure isolation during recreation.                 -/
/- ------------------------------------------------------------------ -/

theorem recreateStep_core_congr (env : RecreateEnv) (ended : List String)
    (o : TrackedOrder) {s₁ s₂ : RecState} (h : recCore s₁ = recCore s₂) :
    recCore (recreateStep env ended s₁ o) = recCore (recreateStep env ended s₂ o) := by
  obtain ⟨l₁, q₁, r₁, c₁⟩ := s₁
  obtain ⟨l₂, q₂, r₂, c₂⟩ := s₂
  simp only [recCore, Prod.mk.injEq] at h
  obtain ⟨hl, hq, hr⟩ := h
  subst hl
  subst hq
  subst hr
  by_cases hm : o.market_slug ∈ ended
  · rw [recreateStep_ended hm, recreateStep_ended hm]
    simp [recCore]
  · rcases hbal : env.balOf o.order_id with _ | bal
    · rw [recreateStep_balNone hm hbal, recreateStep_balNone hm hbal]
      simp [recCore]
    · by_cases hb : bal > 1/10
      · rw [recreateStep_filled hm hbal hb, recreateStep_filled hm hbal hb]
        simp [recCore]
      · rcases hpl : env.placeOf o.order_id with _ | pl
        · rw [recreateStep_placeFail hm hbal hb (Or.inl hpl),
            recreateStep_placeFail hm hbal hb (Or.inl hpl)]
          simp [recCore]
        · rcases pl with _ | newId
          · rw [recreateStep_placeFail hm hbal hb (Or.inr hpl),
              recreateStep_placeFail hm hbal hb (Or.inr hpl)]
            simp [recCore]
          · rw [recreateStep_success hm hbal hb hpl, recreateStep_success hm hbal hb hpl]
            simp [recCore]

theorem foldl_recreateStep_core_congr (env : RecreateEnv) (ended : List String)
    (l : List TrackedOrder) {s₁ s₂ : RecState} (h : recCore s₁ = recCore s₂) :
    recCore (l.foldl (recreateStep env ended) s₁) =
      recCore (l.foldl (recreateStep env ended) s₂) := by
  induction l generalizing s₁ s₂ with
  | nil => simpa using h
  | cons o l ih => exact ih (recreateStep_core_congr env ended o h)

theorem recreateStep_calls_length (env : RecreateEnv) (ended : List String)
    (s : RecState) (o : TrackedOrder) :
    (recreateStep env ended s o).calls.length ≤ s.calls.length + 1 := by
  by_cases hm : o.market_slug ∈ ended
  · rw [recreateStep_ended hm]
    simp
  · rcases hbal : env.balOf o.order_id with _ | bal
    · rw [recreateStep_balNone hm hbal]
      simp
    · by_cases hb : bal > 1/10
      · rw [recreateStep_filled hm hbal hb]
        simp
      · rcases hpl : env.placeOf o.order_id with _ | pl
        · rw [recreateStep_placeFail hm hbal hb (Or.inl hpl)]
          simp
        · rcases pl with _ | newId
          · rw [recreateStep_placeFail hm hbal hb (Or.inr hpl)]
            simp
          · rw [recreateStep_success hm hbal hb hpl]
            simp

theorem status_of_mem_get_disappeared_orders {m : Ledger} {o : TrackedOrder}
    (h : o ∈ get_disappeared_orders m) : o.status = "disappeared" := by
  simp only [get_disappeared_orders, List.mem_filter, decide_eq_true_iff] at h
  exact h.2

/-- C9: per-order failure isolation during recreation. If re-submitting
one disappeared order fails (the balance lookup raises, the placement
raises, or the response has no order id), that order's processing leaves
the ledger, the queue and the recreated count untouched (so its entry
stays as the observe phase left it, with status `disappeared`); the pass
still processes the remaining disappeared orders exactly as it would
without the failing order; and each disappeared order causes at most one
placement attempt per pass. -/
theorem C9_failure_isolation (env : RecreateEnv) (ledger : Ledger) (queue : MQueue)
    (l₁ l₂ : List TrackedOrder) (o : TrackedOrder)
    (hdis : get_disappeared_orders (observeAll env.openOrderIds env.now ledger) =
      l₁ ++ o :: l₂)
    (hna : o.market_slug ∉ computeEndedMarkets env.isActive (l₁ ++ o :: l₂))
    (hfail : env.balOf o.order_id = none ∨
      ∃ bal : ℚ, env.balOf o.order_id = some bal ∧ ¬ bal > 1/10 ∧
        (env.placeOf o.order_id = none ∨ env.placeOf o.order_id = some none)) :
    o.status = "disappeared" ∧
    (∀ s : RecState,
      recCore (recreateStep env (computeEndedMarkets env.isActive (l₁ ++ o :: l₂)) s o) =
        recCore s) ∧
    recCore (check_and_recreate_orders env ledger queue) =
      recCore ((l₁ ++ l₂).foldl
        (recreateStep env (computeEndedMarkets env.isActive (l₁ ++ o :: l₂)))
        ⟨observeAll env.openOrderIds env.now ledger, queue, 0, []⟩) ∧
    (∀ s : RecState,
      (recreateStep env (computeEndedMarkets env.isActive (l₁ ++ o :: l₂)) s o).calls.length ≤
        s.calls.length + 1) := by
  have hstatus : o.status = "disappeared" := by
    refine status_of_mem_get_disappeared_orders (m := observeAll env.openOrderIds env.now ledger) ?_
    rw [hdis]
    exact List.mem_append.2 (Or.inr (List.mem_cons_self o l₂))
  have hstep : ∀ s : RecState,
      recCore (recreateStep env (computeEndedMarkets env.isActive (l₁ ++ o :: l₂)) s o) =
        recCore s := by
    intro s
    rcases hfail with hb | ⟨bal, hb, hble, hpl⟩
    · rw [recreateStep_balNone hna hb]
    · rw [recreateStep_placeFail hna hb hble hpl]
      simp [recCore]
  refine ⟨hstatus, hstep, ?_, fun s => recreateStep_calls_length env _ s o⟩
  show recCore
      ((get_disappeared_orders (observeAll env.openOrderIds env.now ledger)).foldl
        (recreateStep env
          (computeEndedMarkets env.isActive
            (get_disappeared_orders (observeAll env.openOrderIds env.now ledger))))
        ⟨observeAll env.openOrderIds env.now ledger, queue, 0, []⟩) = _
  rw [hdis]
  rw [List.foldl_append, List.foldl_append]
  rw [List.foldl_cons]
  exact foldl_recreateStep_core_congr env _ l₂
    (hstep (l₁.foldl (recreateStep env (computeEndedMarkets env.isActive (l₁ ++ o :: l₂)))
      ⟨observeAll env.openOrderIds env.now ledger, queue, 0, []⟩))

/-- Witness for C9: in the failing sample environment (placement response
without an order id), processing the sample disappeared order leaves
ledger, queue and count untouched, the pass equals the pass without it,
and at most one placement attempt is made. -/
theorem C9_failure_isolation_witness :
    sampleObservedOrder.status = "disappeared" ∧
    recCore (recreateStep sampleRecEnvFail
        (computeEndedMarkets sampleRecEnvFail.isActive ([] ++ sampleObservedOrder :: []))
        sampleRecState sampleObservedOrder) = recCore sampleRecState ∧
    recCore (check_and_recreate_orders sampleRecEnvFail sampleLedger []) =
      recCore (([] ++ []).foldl
        (recreateStep sampleRecEnvFail
          (computeEndedMarkets sampleRecEnvFail.isActive ([] ++ sampleObservedOrder :: [])))
        ⟨observeAll sampleRecEnvFail.openOrderIds sampleRecEnvFail.now sampleLedger, [], 0, []⟩) ∧
    (recreateStep sampleRecEnvFail
        (computeEndedMarkets sampleRecEnvFail.isActive ([] ++ sampleObservedOrder :: []))
        sampleRecState sampleObservedOrder).calls.length ≤
      sampleRecState.calls.length + 1 := by
  have h := C9_failure_isolation sampleRecEnvFail sampleLedger [] [] []
    sampleObservedOrder (by decide) (by decide)
    (Or.inr ⟨0, rfl, by norm_num, Or.inr rfl⟩)
  exact ⟨h.1, h.2.1 sampleRecState, h.2.2.1, h.2.2.2 sampleRecState⟩

/- ------------------------------------------------------------------ -/
/- C4: no double-sell within an exit pass.                            -/
/- ------------------------------------------------------------------ -/

theorem issuedSellSize_append (a b : List VenueCall) (t : String) :
    issuedSellSize (a ++ b) t = issuedSellSize a t + issuedSellSize b t := by
  simp [issuedSellSize]

theorem issuedSellSize_single_sell (tok : String) (pr sz : ℚ) (t : String) :
    issuedSellSize [VenueCall.limitSell tok pr sz] t = if tok = t then sz else 0 := by
  simp [issuedSellSize]

theorem tpDecision_some_unsold {env : TPEnv} {cache : List (String × PriceData)}
    {sells : String → ℚ} {ledger : Ledger} {p : Position} {tp : ℚ}
    (h : tpDecision env cache sells ledger p = some tp) :
    1/10 < p.size - sells p.asset := by
  simp only [tpDecision] at h
  by_cases h1 : p.size < 1/10
  · rw [if_pos h1] at h
    cases h
  · rw [if_neg h1] at h
    by_cases h2 : p.slug ∈ env.alreadyProfitable
    · rw [if_pos h2] at h
      cases h
    · rw [if_neg h2] at h
      by_cases h3 : p.size - sells p.asset ≤ 1/10
      · rw [if_pos h3] at h
        cases h
      · exact not_le.mp h3

theorem tpStep_sells_issued (env : TPEnv) (cache : List (String × PriceData))
    (st : TPState) (p : Position) :
    ((tpStep env cache st p).sells = st.sells ∧ (tpStep env cache st p).issued = st.issued) ∨
    (1/10 < p.size - st.sells p.asset ∧
      ∃ tp : ℚ,
        (∀ u, (tpStep env cache st p).sells u =
          if u = p.asset then st.sells u + (p.size - st.sells p.asset) else st.sells u) ∧
        (tpStep env cache st p).issued =
          st.issued ++ [VenueCall.limitSell p.asset tp (p.size - st.sells p.asset)]) := by
  unfold tpStep
  rcases hd : tpDecision env cache st.sells st.ledger p with _ | tp
  · left
    simp [hd]
  · rcases hs : env.sellResult st.idx with _ | oid
    · left
      simp [hd, hs]
    · right
      refine ⟨tpDecision_some_unsold hd, tp, fun u => ?_, ?_⟩ <;> simp [hd, hs]

theorem tpFold_accounting (env : TPEnv) (cache : List (String × PriceData))
    (l : List Position) (st : TPState) (t : String) :
    (l.foldl (tpStep env cache) st).sells t -
        issuedSellSize (l.foldl (tpStep env cache) st).issued t =
      st.sells t - issuedSellSize st.issued t := by
  induction l generalizing st with
  | nil => rfl
  | cons p l ih =>
    rw [List.foldl_cons, ih]
    rcases tpStep_sells_issued env cache st p with ⟨hs, hi⟩ | ⟨-, tp, hs, hi⟩
    · rw [hs, hi]
    · rw [hs t, hi, issuedSellSize_append, issuedSellSize_single_sell]
      by_cases ht : t = p.asset
      · subst ht
        have hb : p.asset = p.asset := rfl
        rw [if_pos hb, if_pos hb]
        ring
      · have ht' : ¬ p.asset = t := fun hh => ht hh.symm
        rw [if_neg ht, if_neg ht']
        ring

theorem maxPosSize_cons (p : Position) (l : List Position) (t : String) :
    maxPosSize (p :: l) t =
      if p.asset = t then max p.size (maxPosSize l t) else maxPosSize l t := by
  by_cases h : p.asset = t <;> simp [maxPosSize, h]

theorem tpFold_sells_le (env : TPEnv) (cache : List (String × PriceData))
    (l : List Position) (st : TPState) (t : String) (B : ℚ)
    (hst : st.sells t ≤ B) (hl : maxPosSize l t ≤ B) :
    (l.foldl (tpStep env cache) st).sells t ≤ B := by
  induction l generalizing st with
  | nil => exact hst
  | cons p l ih =>
    have hl' : maxPosSize l t ≤ B := by
      rw [maxPosSize_cons] at hl
      by_cases h : p.asset = t
      · rw [if_pos h] at hl
        exact le_trans (le_max_right _ _) hl
      · rwa [if_neg h] at hl
    rw [List.foldl_cons]
    refine ih _ ?_ hl'
    rcases tpStep_sells_issued env cache st p with ⟨hs, -⟩ | ⟨-, tp, hs, -⟩
    · rw [hs]
      exact hst
    · rw [hs t]
      by_cases ht : t = p.asset
      · have hsize : p.size ≤ B := by
          rw [maxPosSize_cons, if_pos ht.symm] at hl
          exact le_trans (le_max_left _ _) hl
        rw [if_pos ht, ht]
        linarith
      · rw [if_neg ht]
        exact hst

/-- C4: no double-sell within a single exit pass. The in-memory
existing-sell accumulator always equals the pre-existing open sell size
plus the total size of the sell orders issued so far (each issued sell is
added to the accumulator immediately), and for every token the
pre-existing sell size plus the cumulative issued sell size never exceeds
the larger of the pre-existing sell size and the largest position size
observed for that token at the start of the pass — so the cumulative
issued size never exceeds the observed position size minus the
pre-existing sell size, even when multiple positions reference the same
token. -/
theorem C4_no_double_sell (env : TPEnv) (positions : List Position)
    (openOrders : List OpenOrder) (cache : List (String × PriceData)) (ledger : Ledger)
    (t : String) :
    (check_filled_positions_and_set_tp env positions openOrders cache ledger).sells t =
      buildSells openOrders t +
        issuedSellSize
          (check_filled_positions_and_set_tp env positions openOrders cache ledger).issued t ∧
    buildSells openOrders t +
        issuedSellSize
          (check_filled_positions_and_set_tp env positions openOrders cache ledger).issued t ≤
      max (buildSells openOrders t) (maxPosSize positions t) := by
  have hacc := tpFold_accounting env cache positions
    ⟨buildSells openOrders, ledger, 0, [], 0⟩ t
  have hbound := tpFold_sells_le env cache positions
    ⟨buildSells openOrders, ledger, 0, [], 0⟩ t
    (max (buildSells openOrders t) (maxPosSize positions t))
    (le_max_left _ _) (le_max_right _ _)
  have hzero : issuedSellSize
      (⟨buildSells openOrders, ledger, 0, [], 0⟩ : TPState).issued t = 0 := rfl
  rw [hzero] at hacc
  unfold check_filled_positions_and_set_tp
  constructor
  · linarith [hacc]
  · linarith [hacc, hbound]

/- ------------------------------------------------------------------ -/
/- C5: cache-driven exit issuance.                                    -/
/- ------------------------------------------------------------------ -/

/-- C5: cache-driven exit issuance. For a position whose size passes the
dust gate, whose market is not excluded, whose unsold size exceeds the
0.1-share dust threshold, and whose (slug, token) key is present in the
price cache with a strong-team price in the non-balanced band
(60 < s <= 75) and at least two entry tiers recorded as filled: the
decision chain resolves the reference data from the cache without
consulting the ledger (the decision is identical for any two ledgers),
the exit rule yields the concrete price s/100 - 2/100, and — when the
placement oracle accepts — exactly one sell order for the unsold size at
that price is issued, the accumulator is topped up to the position size
(so an overlapping later position cannot re-issue the accounted size),
and the placed counter increments once. -/
theorem C5_cache_driven_exit (env : TPEnv) (cache : List (String × PriceData))
    (st : TPState) (p : Position) (d : PriceData) (s : ℚ) (orderId : String)
    (h1 : ¬ p.size < 1/10)
    (h2 : p.slug ∉ env.alreadyProfitable)
    (h3 : 1/10 < p.size - st.sells p.asset)
    (h4 : getKey (cacheKey p.slug p.asset) cache = some d)
    (h5 : d.strong_team_price_cents = some s)
    (h6 : 60 < s) (h7 : s ≤ 75)
    (h8 : 2 ≤ d.filled_entry_numbers.length)
    (h9 : env.sellResult st.idx = some orderId) :
    (∀ L₁ L₂ : Ledger, tpDecision env cache st.sells L₁ p = tpDecision env cache st.sells L₂ p) ∧
    tpDecision env cache st.sells st.ledger p = some (s / 100 - 2/100) ∧
    (tpStep env cache st p).issued =
      st.issued ++
        [VenueCall.limitSell p.asset (s / 100 - 2/100) (p.size - st.sells p.asset)] ∧
    (tpStep env cache st p).sells p.asset = p.size ∧
    (tpStep env cache st p).tp_placed = st.tp_placed + 1 := by
  have hs0 : ¬ s = 0 := by
    intro hzero
    rw [hzero] at h6
    norm_num at h6
  have hdec : ∀ L : Ledger, tpDecision env cache st.sells L p = some (s / 100 - 2/100) := by
    intro L
    simp only [tpDecision, h4, h5]
    rw [if_neg h1, if_neg h2, if_neg (not_le.mpr h3), if_neg hs0,
      if_neg (not_lt.mpr h7), if_neg (not_le.mpr h6), if_neg (not_lt.mpr h8)]
  have hstep : tpStep env cache st p =
      { st with
        ledger := add_order st.ledger orderId p.asset p.slug "SELL" (s / 100 - 2/100)
          (p.size - st.sells p.asset) none none env.now
        sells := fun t => if t = p.asset then st.sells t + (p.size - st.sells p.asset)
          else st.sells t
        tp_placed := st.tp_placed + 1
        issued := st.issued ++
          [VenueCall.limitSell p.asset (s / 100 - 2/100) (p.size - st.sells p.asset)]
        idx := st.idx + 1 } := by
    unfold tpStep
    rw [hdec st.ledger]
    simp only [h9]
  refine ⟨fun L₁ L₂ => (hdec L₁).trans (hdec L₂).symm, hdec st.ledger, ?_, ?_, ?_⟩
  · rw [hstep]
  · rw [hstep]
    show (if p.asset = p.asset then st.sells p.asset + (p.size - st.sells p.asset)
      else st.sells p.asset) = p.size
    rw [if_pos rfl]
    ring
  · rw [hstep]

/-- Witness for C5: the sample position (size 20, no existing sells) with
the sample cache entry (strong team at 70 cents, both tiers filled) and a
succeeding placement oracle issues exactly one sell of size 20 at price
0.68, independently of the ledger. -/
theorem C5_cache_driven_exit_witness :
    tpDecision sampleTPEnv sampleTPCache sampleTPState.sells [("o1", sampleFilledOrder)]
        samplePosition =
      tpDecision sampleTPEnv sampleTPCache sampleTPState.sells [] samplePosition ∧
    tpDecision sampleTPEnv sampleTPCache sampleTPState.sells sampleTPState.ledger
        samplePosition = some ((70 : ℚ) / 100 - 2/100) ∧
    (tpStep sampleTPEnv sampleTPCache sampleTPState samplePosition).issued =
      sampleTPState.issued ++
        [VenueCall.limitSell samplePosition.asset ((70 : ℚ) / 100 - 2/100)
          (samplePosition.size - sampleTPState.sells samplePosition.asset)] ∧
    (tpStep sampleTPEnv sampleTPCache sampleTPState samplePosition).sells
        samplePosition.asset = samplePosition.size ∧
    (tpStep sampleTPEnv sampleTPCache sampleTPState samplePosition).tp_placed =
      sampleTPState.tp_placed + 1 := by
  have h := C5_cache_driven_exit sampleTPEnv sampleTPCache sampleTPState samplePosition
    { price := 1, strong_team_price_cents := some 70, filled_entry_numbers := [1, 2] }
    70 "s1"
    (by norm_num [samplePosition])
    (by simp [sampleTPEnv])
    (by norm_num [samplePosition, sampleTPState])
    (by decide)
    rfl
    (by norm_num) (by norm_num)
    (by decide)
    rfl
  exact ⟨h.1 [("o1", sampleFilledOrder)] [], h.2.1, h.2.2.1, h.2.2.2.1, h.2.2.2.2⟩

end Polysport
